import Mathlib

/-!  Shallow embedding of the suggestion engine of the task-management
repository (src/suggestion.py and the suggestion helpers of src/server.py).

Conventions of the embedding:
* pandas dataframes are modelled as a list of rows plus the two derived
  columns that `suggest_similar_tasks` assigns (`combined_text`,
  `next_combined_text`), each `none` while the column is absent;
* operations that can raise in Python return `Except Err`;
* machine floats of the similarity pipeline are modelled with `ℚ`
  (every score handled below is exactly representable, see `simSq`);
* timestamps are modelled as `Nat` (their value is never inspected).  -/

deriving instance DecidableEq for Except

namespace TaskMgmt

/-- Error taxonomy of the Python exceptions the engine can raise. -/
inductive Err where
  | indexError
  | keyError
  | valueError
  | attributeError
deriving Repr, DecidableEq

/-- The task-shaped records the engine returns (models.Task restricted to the
fields the engine reads and writes: title, description, due_date). -/
structure Task where
  title : String
  description : Option String
  due_date : Option Nat
deriving Repr, DecidableEq

/-- One row of the input dataframe. -/
structure Row where
  title : String
  description : Option String
  due_date : Option Nat
deriving Repr, DecidableEq

/-- The dataframe: its rows plus the two derived columns, `none` while the
column has not been assigned. -/
structure DataFrame where
  rows : List Row
  combined_text : Option (List String)
  next_combined_text : Option (List (Option String))
deriving Repr, DecidableEq

/-- Combined text of a row: `tasks_df.title + " " + tasks_df.description.fillna("")`. -/
def combinedText (r : Row) : String :=
  r.title ++ " " ++ r.description.getD ""

/-- Fresh Task built from a dataframe row, as in the list comprehensions of
`_suggest_similar_texts` and the return of `_searching_for_sequences`. -/
def rowToTask (r : Row) : Task :=
  { title := r.title, description := r.description, due_date := r.due_date }

/-- Query text of a target task:
`" ".join(e for e in [target.title, target.description] if e is not None)`. -/
def joinTaskText (t : Task) : String :=
  match t.description with
  | some d => t.title ++ " " ++ d
  | none => t.title

/-- Query text of an optional target: the empty string when no target is given. -/
def targetText (target : Option Task) : String :=
  match target with
  | none => ""
  | some t => joinTaskText t

/-- Pandas `Series.shift(-1)`: every element moves up one position and the
last position becomes NaN (`none`); the shift of an empty column is empty. -/
def shiftNext : List String → List (Option String)
  | [] => []
  | [_] => [none]
  | _ :: y :: rest => some y :: shiftNext (y :: rest)

/-- The column assignments of `suggest_similar_tasks` lines 37-38: the two
derived columns are written into the caller's dataframe. -/
def withDerived (df : DataFrame) : DataFrame :=
  let ct := df.rows.map combinedText
  { df with combined_text := some ct, next_combined_text := some (shiftNext ct) }

/-! ### Tokenization (sklearn TfidfVectorizer analyzer)

sklearn lowercases each document, extracts maximal runs of word characters of
length at least two (token_pattern) and removes English stop words.  The stop
list below is a representative subset of sklearn's fixed English list; none of
the statements below depends on its completeness.  -/

/-- Word characters of the default token pattern. -/
def isWordChar (c : Char) : Bool := c.isAlphanum || c = '_'

/-- Emit the pending token, most recent character first. -/
def flushTok (acc : List Char) : List String :=
  if acc.isEmpty then [] else [String.mk acc.reverse]

/-- Split a character stream into maximal runs of word characters. -/
def splitWordsAux : List Char → List Char → List String
  | [], acc => flushTok acc
  | c :: cs, acc =>
    if isWordChar c then splitWordsAux cs (c :: acc)
    else flushTok acc ++ splitWordsAux cs []

/-- Representative subset of sklearn's fixed English stop-word list. -/
def stopWords : List String :=
  ["a", "an", "and", "are", "as", "at", "be", "by", "for", "from", "had",
   "has", "have", "he", "her", "his", "in", "is", "it", "its", "of", "on",
   "or", "that", "the", "this", "to", "was", "were", "will", "with"]

/-- Analyzer of `TfidfVectorizer(stop_words='english')`: lowercase, keep
word-character runs of length at least two, drop stop words. -/
def tokenize (s : String) : List String :=
  (splitWordsAux (s.data.map Char.toLower) []).filter
    (fun t => decide (2 ≤ t.length) && ! stopWords.contains t)

/-- Lexicographic comparison of code-point sequences, the string order of
both Python and numpy (used by pandas and sklearn when they sort labels). -/
def lexLt : List Char → List Char → Bool
  | _, [] => false
  | [], _ :: _ => true
  | a :: as, b :: bs =>
    if a.toNat < b.toNat then true
    else if b.toNat < a.toNat then false
    else lexLt as bs

/-- Strict lexicographic order on strings. -/
def strLt (a b : String) : Bool := lexLt a.data b.data

/-- Insert into a sorted duplicate-free list, keeping it sorted and
duplicate-free. -/
def insDedup (x : String) : List String → List String
  | [] => [x]
  | y :: ys =>
    if x = y then y :: ys
    else if strLt x y then x :: y :: ys
    else y :: insDedup x ys

/-- Sorted list of the distinct elements of a list (sklearn sorts its fitted
vocabulary alphabetically; pandas crosstab sorts its labels the same way). -/
def sortedUnique (l : List String) : List String := l.foldr insDedup []

/-- Vocabulary fitted on the corpus. -/
def fitVocab (ct : List String) : List String :=
  sortedUnique ((ct.map tokenize).flatten)

/-- Term-count vector of a document over the fitted vocabulary. -/
def docVector (vocab : List String) (text : String) : List Nat :=
  let toks := tokenize text
  vocab.map (fun w => (toks.filter (fun t => t == w)).length)

/-- Dot product of count vectors. -/
def dotN (u v : List Nat) : Nat := (List.zipWith (fun a b => a * b) u v).sum

/-- Cosine similarity of two count vectors, represented by its square so that
it stays rational: `mkRat a b` is the rational `a / b` (and 0 when `b = 0`).
All entries are nonnegative, so cosine lies in [0, 1] and squaring is strictly
monotone there: rankings, ties and the comparisons made below are exactly
those of the cosine itself.  sklearn additionally multiplies each coordinate
by a positive idf factor; at every concrete input evaluated in this file the
token multisets of any two compared documents are disjoint or identical,
where the cosine is 0 or 1 under any positive per-term weighting, so unit
weights are used.  A zero vector yields similarity 0 (a zero denominator),
matching sklearn's convention. -/
def simSq (u v : List Nat) : ℚ := mkRat ((dotN u v : Int) ^ 2) (dotN u u * dotN v v)

/-- The similarity row that `_suggest_similar_texts` ranks
(`similarity_matrix[0]`): against the first document in pairwise mode, against
the query vector otherwise.  `fit_transform` raises ValueError when the fitted
vocabulary is empty (in particular on an empty corpus). -/
def similarityRow (ct : List String) (inputText : String) : Except Err (List ℚ) :=
  let vocab := fitVocab ct
  if vocab.isEmpty then Except.error Err.valueError
  else
    let vecs := ct.map (docVector vocab)
    if inputText = "" then
      match vecs with
      | [] => Except.error Err.indexError
      | v0 :: _ => Except.ok (vecs.map (fun v => simSq v0 v))
    else
      Except.ok (vecs.map (fun v => simSq (docVector vocab inputText) v))

/-! ### numpy argsort, reversal and Python slicing -/

/-- Pair each score with its position, starting at `n`. -/
def idxFrom (n : Nat) : List ℚ → List (Nat × ℚ)
  | [] => []
  | x :: xs => (n, x) :: idxFrom (n + 1) xs

/-- Insert into a list sorted ascending by score, before the first element of
greater-or-equal score (stability: elements inserted later sit further right
among equal scores). -/
def insertAsc (p : Nat × ℚ) : List (Nat × ℚ) → List (Nat × ℚ)
  | [] => [p]
  | q :: qs => if p.2 ≤ q.2 then p :: q :: qs else q :: insertAsc p qs

/-- Stable ascending sort of the indexed scores. -/
def sortedIdxPairs (row : List ℚ) : List (Nat × ℚ) :=
  (idxFrom 0 row).foldr insertAsc []

/-- `np.argsort(row)`: indices of the row sorted ascending by score, equal
scores in index order (numpy's sort is stable at the sizes evaluated here). -/
def argsortAsc (row : List ℚ) : List Nat :=
  (sortedIdxPairs row).map Prod.fst

/-- Python slice `l[:n]`: for nonnegative `n` the first `n` elements, for
negative `n` all but the last `|n|` elements (empty when `|n|` exceeds the
length). -/
def pySliceTake (l : List α) (n : Int) : List α :=
  if 0 ≤ n then l.take n.toNat else l.take ((l.length : Int) + n).toNat

/-- `np.argsort(similarity_matrix[0])[::-1][:top_n]`. -/
def rankedIndices (row : List ℚ) (topN : Int) : List Nat :=
  pySliceTake (argsortAsc row).reverse topN

/-- Model of `_suggest_similar_texts`: rank the corpus by the similarity row
and rebuild fresh Task records from the selected dataframe rows. -/
def suggest_similar_texts (df : DataFrame) (target : Option Task) (topN : Int) :
    Except Err (List Task) :=
  match df.combined_text with
  | none => Except.error Err.attributeError
  | some ct =>
    match similarityRow ct (targetText target) with
    | Except.error e => Except.error e
    | Except.ok row =>
      Except.ok ((rankedIndices row topN).filterMap
        (fun i => (df.rows.get? i).map rowToTask))

/-! ### The sequence predictor (pandas crosstab Markov model) -/

/-- Observed transitions: adjacent pairs of the history; pandas crosstab drops
every pair whose successor is NaN, so the last element contributes none. -/
def transPairs (ct : List String) (nct : List (Option String)) :
    List (String × String) :=
  (ct.zip nct).filterMap (fun p => p.2.map (fun t => (p.1, t)))

/-- Row labels of the crosstab: the distinct sources, sorted. -/
def ctIndex (pairs : List (String × String)) : List String :=
  sortedUnique (pairs.map Prod.fst)

/-- Column labels of the crosstab: the distinct successors, sorted. -/
def ctCols (pairs : List (String × String)) : List String :=
  sortedUnique (pairs.map Prod.snd)

/-- Crosstab cell: how often `t` was observed right after `s`. -/
def transCount (pairs : List (String × String)) (s t : String) : Nat :=
  (pairs.filter (fun p => p.1 == s && p.2 == t)).length

/-- Row sum of the crosstab. -/
def rowTotal (pairs : List (String × String)) (s : String) : Nat :=
  (pairs.filter (fun p => p.1 == s)).length

/-- Row-normalized transition probability
(`transitions.div(transitions.sum(axis=1), axis=0).fillna(0)`), written
`mkRat count total`, the rational `count / total`; an all-zero row yields 0
because `mkRat` of a zero denominator is 0, matching the fillna. -/
def transProb (pairs : List (String × String)) (s t : String) : ℚ :=
  mkRat (transCount pairs s t : Int) (rowTotal pairs s)

/-- Pandas `Series.idxmax` together with `Series.max`: the first label
attaining the maximal value, in label order. -/
def seriesIdxmax : List String → List ℚ → Option (String × ℚ)
  | l :: ls, v :: vs =>
    (match seriesIdxmax ls vs with
     | none => some (l, v)
     | some (l2, v2) => if v < v2 then some (l2, v2) else some (l, v))
  | _, _ => none

/-- Reconstruction `tasks_df[tasks_df.combined_text == predicted].iloc[0]`:
the first row whose combined text equals the predicted text. -/
def firstMatch (rows : List Row) (ct : List String) (p : String) : Option Row :=
  ((rows.zip ct).find? (fun rc => rc.2 == p)).map Prod.fst

/-- Body of `_searching_for_sequences` once the two derived columns are in
hand: build the crosstab transition model, look up the row of the last event
(KeyError when the last text was never the source of an observed transition,
IndexError on an empty history), take the idxmax successor and emit it when
its probability is at least 0.5; the `pd.isna` guard of the source is vacuous
here because NaN successors never enter the crosstab columns. -/
def searchBody (rows : List Row) (ct : List String) (nct : List (Option String)) :
    Except Err (Option Task) :=
  let pairs := transPairs ct nct
  match ct.getLast? with
  | none => Except.error Err.indexError
  | some lastEvent =>
    if lastEvent ∈ ctIndex pairs then
      match seriesIdxmax (ctCols pairs)
          ((ctCols pairs).map (transProb pairs lastEvent)) with
      | none => Except.error Err.valueError
      | some (predText, predProb) =>
        if mkRat 1 2 ≤ predProb then
          match firstMatch rows ct predText with
          | some r => Except.ok (some (rowToTask r))
          | none => Except.error Err.indexError
        else Except.ok none
    else Except.error Err.keyError

/-- Model of `_searching_for_sequences`: read the two derived columns off the
dataframe (AttributeError when absent) and run the transition-model body. -/
def searching_for_sequences (df : DataFrame) : Except Err (Option Task) :=
  match df.combined_text, df.next_combined_text with
  | some ct, some nct => searchBody df.rows ct nct
  | _, _ => Except.error Err.attributeError

/-- Model of `suggest_similar_tasks`: assign the derived columns into the
caller's dataframe, try the sequence predictor, and combine with the
similarity ranking exactly as the source does.  The second component is the
dataframe as the caller sees it after the call. -/
def suggest_similar_tasks (df : DataFrame) (target : Option Task := none)
    (topN : Int := 5) : Except Err (List Task) × DataFrame :=
  let df2 := withDerived df
  match searching_for_sequences df2 with
  | Except.error e => (Except.error e, df2)
  | Except.ok none => (suggest_similar_texts df2 target topN, df2)
  | Except.ok (some foundSequence) =>
    if 0 < topN - 1 then
      match suggest_similar_texts df2 target (topN - 1) with
      | Except.error e => (Except.error e, df2)
      | Except.ok l => (Except.ok (foundSequence :: l), df2)
    else (Except.ok [foundSequence], df2)

/-! ### server.py suggestion helpers -/

/-- Stable descending insertion: before the first strictly smaller score,
after every earlier equal score, as Python's stable
`sorted(..., reverse=True)`. -/
def insertDesc (p : String × ℚ) : List (String × ℚ) → List (String × ℚ)
  | [] => [p]
  | q :: qs => if q.2 ≤ p.2 then p :: q :: qs else q :: insertDesc p qs

/-- `sorted(similarities.items(), key=lambda x: x[1], reverse=True)`. -/
def sortDescStable (l : List (String × ℚ)) : List (String × ℚ) :=
  l.foldr insertDesc []

/-- `defaultdict(list)` append: extend the bucket of `k` by `v`, creating the
bucket at the end when it is missing. -/
def assocAppend (k v : String) : List (String × List String) →
    List (String × List String)
  | [] => [(k, [v])]
  | (k2, l) :: rest =>
    if k2 = k then (k2, l ++ [v]) :: rest else (k2, l) :: assocAppend k v rest

/-- Inner loop of `generate_title_description_suggestions`: walk the sorted
similarities, append every title whose score is strictly above 0.5, decrement
the limit after each append and return early (third component true) once the
limit is exhausted. -/
def titleLoop (key : String) : List (String × ℚ) → List (String × List String) →
    Int → List (String × List String) × Int × Bool
  | [], acc, limit => (acc, limit, false)
  | (s, sc) :: rest, acc, limit =>
    if mkRat 1 2 < sc then
      if 0 < limit then titleLoop key rest (assocAppend key s acc) (limit - 1)
      else (assocAppend key s acc, limit, true)
    else titleLoop key rest acc limit

/-- Python truthiness of the optional `task_title` argument. -/
def isTruthy (tt : Option String) : Bool :=
  match tt with
  | none => false
  | some s => s ≠ ""

/-- Outer loop of `generate_title_description_suggestions` over the items of
the similarity matrix, skipping rows other than the requested title. -/
def gtdsOuter (tt : Option String) : List (String × List (String × ℚ)) →
    List (String × List String) → Int → List (String × List String)
  | [], acc, _ => acc
  | (title, sims) :: rest, acc, limit =>
    if isTruthy tt ∧ ¬ tt = some title then gtdsOuter tt rest acc limit
    else
      match titleLoop (title ++ " Follow-up") (sortDescStable sims) acc limit with
      | (acc2, limit2, earlyReturn) =>
        if earlyReturn then acc2 else gtdsOuter tt rest acc2 limit2

/-- Model of server.py `generate_title_description_suggestions`: the
similarity matrix arrives as an association list (dict insertion order), the
result is the suggestions dict as an association list. -/
def generate_title_description_suggestions
    (matrix : List (String × List (String × ℚ))) (tt : Option String)
    (limit : Int) : List (String × List String) :=
  gtdsOuter tt matrix [] limit

/-! ### Named concrete inputs used by the evaluations below -/

/-- The dataframe as the engine's callers build it: rows only, no derived
columns yet. -/
def dfOf (rows : List Row) : DataFrame :=
  { rows := rows, combined_text := none, next_combined_text := none }

/-- The combined-text column derived from the rows. -/
def ctOf (rows : List Row) : List String := rows.map combinedText

/-- The observed transition pairs of a history. -/
def pairsOf (rows : List Row) : List (String × String) :=
  transPairs (ctOf rows) (shiftNext (ctOf rows))

/-- Row with title "alpha" and no description or due date. -/
def rowAlpha : Row := { title := "alpha", description := none, due_date := none }

/-- Row with title "beta" and no description or due date. -/
def rowBeta : Row := { title := "beta", description := none, due_date := none }

/-- Second row with title "beta", distinguishable by its due date. -/
def rowBeta7 : Row := { title := "beta", description := none, due_date := some 7 }

/-- Row with title "carol" and no description or due date. -/
def rowCarol : Row := { title := "carol", description := none, due_date := none }

/-- Row with title "delta" and no description or due date. -/
def rowDelta : Row := { title := "delta", description := none, due_date := none }

/-! ### Ordering facts about the argsort pipeline -/

/-- The relation stable ascending argsort establishes along its output:
scores ascend, and equal scores keep index order. -/
def AscStable (a b : Nat × ℚ) : Prop := a.2 < b.2 ∨ (a.2 = b.2 ∧ a.1 < b.1)

theorem mem_insertAsc {p q : Nat × ℚ} : ∀ {l : List (Nat × ℚ)},
    q ∈ insertAsc p l ↔ q = p ∨ q ∈ l := by
  intro l
  induction l with
  | nil => simp [insertAsc]
  | cons x xs ih =>
    by_cases h : p.2 ≤ x.2 <;> simp [insertAsc, h, ih] <;> tauto

theorem length_insertAsc (p : Nat × ℚ) : ∀ (l : List (Nat × ℚ)),
    (insertAsc p l).length = l.length + 1 := by
  intro l
  induction l with
  | nil => rfl
  | cons x xs ih =>
    by_cases h : p.2 ≤ x.2 <;> simp [insertAsc, h, ih]

theorem insertAsc_pairwise {p : Nat × ℚ} : ∀ {l : List (Nat × ℚ)},
    l.Pairwise AscStable → (∀ q ∈ l, p.1 < q.1) →
    (insertAsc p l).Pairwise AscStable := by
  intro l
  induction l with
  | nil => intro _ _; simp [insertAsc, AscStable]
  | cons x xs ih =>
    intro hl hidx
    rcases List.pairwise_cons.mp hl with ⟨hx, hxs⟩
    by_cases h : p.2 ≤ x.2
    · have hball : ∀ q ∈ x :: xs, AscStable p q := by
        intro q hq
        rcases List.mem_cons.mp hq with rfl | hq2
        · rcases lt_or_eq_of_le h with h2 | h2
          · exact Or.inl h2
          · exact Or.inr ⟨h2, hidx q (by simp)⟩
        · have hxq : x.2 ≤ q.2 := by
            rcases hx q hq2 with h3 | ⟨h3, _⟩
            · exact le_of_lt h3
            · exact le_of_eq h3
          rcases lt_or_eq_of_le (le_trans h hxq) with h4 | h4
          · exact Or.inl h4
          · exact Or.inr ⟨h4, hidx q (by simp [hq2])⟩
      simpa [insertAsc, h] using List.pairwise_cons.mpr ⟨hball, hl⟩
    · have hxp : x.2 < p.2 := lt_of_not_le h
      have htail : (insertAsc p xs).Pairwise AscStable :=
        ih hxs (fun q hq => hidx q (by simp [hq]))
      have hhead : ∀ q ∈ insertAsc p xs, AscStable x q := by
        intro q hq
        rcases mem_insertAsc.mp hq with rfl | hq2
        · exact Or.inl hxp
        · exact hx q hq2
      simpa [insertAsc, h] using List.pairwise_cons.mpr ⟨hhead, htail⟩

theorem mem_idxFrom {q : Nat × ℚ} : ∀ {row : List ℚ} {n : Nat}, q ∈ idxFrom n row →
    n ≤ q.1 ∧ row.get? (q.1 - n) = some q.2 := by
  intro row
  induction row with
  | nil => intro n h; simp [idxFrom] at h
  | cons x xs ih =>
    intro n h
    rcases List.mem_cons.mp h with rfl | h2
    · simp
    · rcases ih h2 with ⟨h3, h4⟩
      refine ⟨by omega, ?_⟩
      have : q.1 - n = (q.1 - (n + 1)) + 1 := by omega
      rw [this, List.get?_cons_succ]
      exact h4

theorem idxFrom_pairwise : ∀ (row : List ℚ) (n : Nat),
    (idxFrom n row).Pairwise (fun a b => a.1 < b.1) := by
  intro row
  induction row with
  | nil => intro n; simp [idxFrom]
  | cons x xs ih =>
    intro n
    refine List.pairwise_cons.mpr ⟨?_, ih (n + 1)⟩
    intro q hq
    have := (mem_idxFrom hq).1
    simpa using by omega

theorem length_idxFrom : ∀ (row : List ℚ) (n : Nat), (idxFrom n row).length = row.length := by
  intro row
  induction row with
  | nil => intro n; rfl
  | cons x xs ih => intro n; simp [idxFrom, ih]

theorem mem_foldr_insertAsc {q : Nat × ℚ} : ∀ {l : List (Nat × ℚ)},
    q ∈ l.foldr insertAsc [] ↔ q ∈ l := by
  intro l
  induction l with
  | nil => simp
  | cons p rest ih => simp [mem_insertAsc, ih]

theorem mem_sortedIdxPairs {q : Nat × ℚ} {row : List ℚ} :
    q ∈ sortedIdxPairs row ↔ q ∈ idxFrom 0 row := mem_foldr_insertAsc

theorem sortedIdxPairs_pairwise (row : List ℚ) :
    (sortedIdxPairs row).Pairwise AscStable := by
  have key : ∀ l : List (Nat × ℚ), l.Pairwise (fun a b => a.1 < b.1) →
      (l.foldr insertAsc []).Pairwise AscStable := by
    intro l hl
    induction l with
    | nil => simp
    | cons p rest ih =>
      rcases List.pairwise_cons.mp hl with ⟨hp, hrest⟩
      exact insertAsc_pairwise (ih hrest)
        (fun q hq => hp q (mem_foldr_insertAsc.mp hq))
  exact key _ (idxFrom_pairwise row 0)

theorem length_sortedIdxPairs (row : List ℚ) :
    (sortedIdxPairs row).length = row.length := by
  have key : ∀ l : List (Nat × ℚ), (l.foldr insertAsc []).length = l.length := by
    intro l
    induction l with
    | nil => rfl
    | cons p rest ih => simp [length_insertAsc, ih]
  rw [sortedIdxPairs, key, length_idxFrom]

theorem length_argsortAsc (row : List ℚ) : (argsortAsc row).length = row.length := by
  rw [argsortAsc, List.length_map, length_sortedIdxPairs]

theorem mem_argsortAsc_lt {i : Nat} {row : List ℚ} (h : i ∈ argsortAsc row) :
    i < row.length := by
  rcases List.mem_map.mp h with ⟨p, hp, rfl⟩
  have h2 := (mem_idxFrom (mem_sortedIdxPairs.mp hp)).2
  simp only [Nat.sub_zero] at h2
  by_contra hge
  rw [List.get?_eq_none.mpr (by omega)] at h2
  exact Option.noConfusion h2

theorem pySliceTake_sublist (l : List α) (n : Int) : (pySliceTake l n).Sublist l := by
  unfold pySliceTake
  split <;> exact List.take_sublist _ _

theorem pySliceTake_map {α β : Type} (f : α → β) (l : List α) (n : Int) :
    pySliceTake (l.map f) n = (pySliceTake l n).map f := by
  unfold pySliceTake
  rw [List.length_map]
  split <;> rw [List.map_take]

theorem mem_rankedIndices_lt {i : Nat} {row : List ℚ} {topN : Int}
    (h : i ∈ rankedIndices row topN) : i < row.length := by
  have h2 := (pySliceTake_sublist (argsortAsc row).reverse topN).subset h
  exact mem_argsortAsc_lt (List.mem_reverse.mp h2)

theorem length_filterMap_get (rows : List Row) : ∀ idxs : List Nat,
    (∀ i ∈ idxs, i < rows.length) →
    (idxs.filterMap (fun i => (rows.get? i).map rowToTask)).length = idxs.length := by
  intro idxs
  induction idxs with
  | nil => intro _; rfl
  | cons i is ih =>
    intro h
    have hi : i < rows.length := h i (by simp)
    obtain ⟨r, hr⟩ : ∃ r, rows.get? i = some r := by
      cases hh : rows.get? i with
      | none => exact absurd (List.get?_eq_none.mp hh) (by omega)
      | some r => exact ⟨r, rfl⟩
    rw [List.filterMap_cons, hr]
    show (rowToTask r :: List.filterMap _ is).length = is.length + 1
    rw [List.length_cons, ih (fun j hj => h j (by simp [hj]))]

theorem length_rankedIndices_nonneg (row : List ℚ) {topN : Int} (h : 0 ≤ topN) :
    (rankedIndices row topN).length = min topN.toNat row.length := by
  rw [rankedIndices, pySliceTake, if_pos h, List.length_take,
    List.length_reverse, length_argsortAsc]

theorem length_rankedIndices_neg (row : List ℚ) {topN : Int} (h : topN < 0) :
    (rankedIndices row topN).length = ((row.length : Int) + topN).toNat := by
  rw [rankedIndices, pySliceTake, if_neg (by omega), List.length_take,
    List.length_reverse, length_argsortAsc]
  omega

theorem rankedIndices_zero (row : List ℚ) : rankedIndices row 0 = [] := by
  rw [rankedIndices, pySliceTake, if_pos le_rfl]
  rfl

/-! ### Facts about the similarity ranker -/

theorem fitVocab_nil : fitVocab [] = [] := rfl

theorem similarityRow_ok_length {ct : List String} {q : String} {row : List ℚ}
    (h : similarityRow ct q = Except.ok row) : row.length = ct.length := by
  unfold similarityRow at h
  by_cases hv : (fitVocab ct).isEmpty
  · simp [hv] at h
  · simp only [hv, if_false, Bool.false_eq_true] at h
    by_cases hq : q = ""
    · simp only [hq, if_pos rfl] at h
      cases hc : ct.map (docVector (fitVocab ct)) with
      | nil => rw [hc] at h; exact absurd h (by simp)
      | cons v0 vs =>
        rw [hc] at h
        have := Except.ok.inj h
        rw [← this, List.length_map, ← hc, List.length_map]
    · rw [if_neg hq] at h
      have := Except.ok.inj h
      rw [← this, List.length_map, List.length_map]

theorem similarityRow_ok_of_vocab {ct : List String} (q : String)
    (h : ¬ (fitVocab ct).isEmpty) :
    ∃ row, similarityRow ct q = Except.ok row ∧ row.length = ct.length := by
  have hct : ct ≠ [] := by
    intro hc
    rw [hc, fitVocab_nil] at h
    exact h rfl
  unfold similarityRow
  simp only [h, if_false, Bool.false_eq_true]
  by_cases hq : q = ""
  · rw [if_pos hq]
    cases hc : ct.map (docVector (fitVocab ct)) with
    | nil => exact absurd (List.map_eq_nil_iff.mp hc) hct
    | cons v0 vs =>
      refine ⟨_, rfl, ?_⟩
      rw [List.length_map, ← hc, List.length_map]
  · rw [if_neg hq]
    exact ⟨_, rfl, by rw [List.length_map, List.length_map]⟩

theorem sst_ok_elim {df : DataFrame} {target : Option Task} {topN : Int}
    {l : List Task} {ct : List String} (hct : df.combined_text = some ct)
    (h : suggest_similar_texts df target topN = Except.ok l) :
    ∃ row, similarityRow ct (targetText target) = Except.ok row ∧
      l = (rankedIndices row topN).filterMap
        (fun i => (df.rows.get? i).map rowToTask) := by
  unfold suggest_similar_texts at h
  rw [hct] at h
  dsimp only at h
  cases hs : similarityRow ct (targetText target) with
  | error e => simp [hs] at h
  | ok row =>
    rw [hs] at h
    dsimp only at h
    exact ⟨row, rfl, (Except.ok.inj h).symm⟩

theorem sst_length_le {df : DataFrame} {target : Option Task} {topN : Int}
    {l : List Task} (h0 : 0 ≤ topN)
    (h : suggest_similar_texts df target topN = Except.ok l) :
    l.length ≤ topN.toNat := by
  cases hct : df.combined_text with
  | none => unfold suggest_similar_texts at h; rw [hct] at h; exact absurd h (by simp)
  | some ct =>
    rcases sst_ok_elim hct h with ⟨row, _, rfl⟩
    calc ((rankedIndices row topN).filterMap _).length
        ≤ (rankedIndices row topN).length := List.length_filterMap_le _ _
      _ = min topN.toNat row.length := length_rankedIndices_nonneg row h0
      _ ≤ topN.toNat := min_le_left _ _

theorem sst_zero {df : DataFrame} {target : Option Task} {l : List Task}
    (h : suggest_similar_texts df target 0 = Except.ok l) : l = [] := by
  cases hct : df.combined_text with
  | none => unfold suggest_similar_texts at h; rw [hct] at h; exact absurd h (by simp)
  | some ct =>
    rcases sst_ok_elim hct h with ⟨row, _, rfl⟩
    rw [rankedIndices_zero]
    rfl

theorem sst_withDerived_length {df : DataFrame} {target : Option Task} {topN : Int}
    {l : List Task}
    (h : suggest_similar_texts (withDerived df) target topN = Except.ok l) :
    ∃ row, similarityRow (df.rows.map combinedText) (targetText target) = Except.ok row ∧
      row.length = df.rows.length ∧
      l.length = (rankedIndices row topN).length := by
  rcases sst_ok_elim (by rfl) h with ⟨row, hrow, rfl⟩
  have hlen : row.length = df.rows.length := by
    rw [similarityRow_ok_length hrow, List.length_map]
  refine ⟨row, hrow, hlen, ?_⟩
  have hrows : (withDerived df).rows = df.rows := rfl
  rw [hrows]
  exact length_filterMap_get df.rows _
    (fun i hi => hlen ▸ mem_rankedIndices_lt hi)

/-! ### Facts about the code-point order and the sorted label lists -/

theorem lexLt_trans : ∀ {a b c : List Char}, lexLt a b = true → lexLt b c = true →
    lexLt a c = true := by
  intro a
  induction a with
  | nil =>
    intro b c hab hbc
    cases b with
    | nil => simp [lexLt] at hab
    | cons y ys =>
      cases c with
      | nil => simp [lexLt] at hbc
      | cons z zs => simp [lexLt]
  | cons x xs ih =>
    intro b c hab hbc
    cases b with
    | nil => simp [lexLt] at hab
    | cons y ys =>
      cases c with
      | nil => simp [lexLt] at hbc
      | cons z zs =>
        simp only [lexLt] at hab hbc ⊢
        by_cases h1 : x.toNat < y.toNat
        · by_cases h2 : y.toNat < z.toNat
          · rw [if_pos (by omega)]
          · rw [if_neg h2] at hbc
            by_cases h3 : z.toNat < y.toNat
            · rw [if_pos h3] at hbc
              exact absurd hbc (by simp)
            · rw [if_pos (by omega)]
        · rw [if_neg h1] at hab
          by_cases h1b : y.toNat < x.toNat
          · rw [if_pos h1b] at hab
            exact absurd hab (by simp)
          · rw [if_neg h1b] at hab
            by_cases h2 : y.toNat < z.toNat
            · rw [if_pos (by omega)]
            · rw [if_neg h2] at hbc
              by_cases h3 : z.toNat < y.toNat
              · rw [if_pos h3] at hbc
                exact absurd hbc (by simp)
              · rw [if_neg h3] at hbc
                rw [if_neg (by omega), if_neg (by omega)]
                exact ih hab hbc

theorem lexLt_total : ∀ {a b : List Char}, a ≠ b → lexLt a b = true ∨ lexLt b a = true := by
  intro a
  induction a with
  | nil =>
    intro b hne
    cases b with
    | nil => exact absurd rfl hne
    | cons y ys => left; simp [lexLt]
  | cons x xs ih =>
    intro b hne
    cases b with
    | nil => right; simp [lexLt]
    | cons y ys =>
      by_cases h1 : x.toNat < y.toNat
      · left; simp [lexLt, h1]
      · by_cases h2 : y.toNat < x.toNat
        · right; simp [lexLt, h2]
        · have h3 : x.toNat = y.toNat := by omega
          have hxy : x = y := Char.ext (UInt32.toNat.inj h3)
          subst hxy
          have hxs : xs ≠ ys := fun hh => hne (by rw [hh])
          rcases ih hxs with h | h
          · left; simpa [lexLt, h1, h2] using h
          · right; simpa [lexLt, h1, h2] using h

theorem strLt_trans {a b c : String} (h1 : strLt a b = true) (h2 : strLt b c = true) :
    strLt a c = true := lexLt_trans h1 h2

theorem strLt_total {a b : String} (h : a ≠ b) : strLt a b = true ∨ strLt b a = true := by
  apply lexLt_total
  intro hd
  apply h
  cases a with
  | mk da =>
    cases b with
    | mk db =>
      have hdd : da = db := by simpa using hd
      rw [hdd]

theorem mem_insDedup {x a : String} : ∀ {l : List String},
    a ∈ insDedup x l ↔ a = x ∨ a ∈ l := by
  intro l
  induction l with
  | nil => simp [insDedup]
  | cons y ys ih =>
    by_cases h1 : x = y
    · subst h1
      have he : insDedup x (x :: ys) = x :: ys := by simp [insDedup]
      rw [he]
      simp only [List.mem_cons]
      tauto
    · by_cases h2 : strLt x y = true
      · have he : insDedup x (y :: ys) = x :: y :: ys := by simp [insDedup, h1, h2]
        rw [he]
        simp only [List.mem_cons]
      · have he : insDedup x (y :: ys) = y :: insDedup x ys := by simp [insDedup, h1, h2]
        rw [he]
        simp only [List.mem_cons, ih]
        tauto

theorem mem_sortedUnique {a : String} : ∀ {l : List String},
    a ∈ sortedUnique l ↔ a ∈ l := by
  intro l
  induction l with
  | nil => simp [sortedUnique]
  | cons x xs ih =>
    show a ∈ insDedup x (sortedUnique xs) ↔ _
    simp [mem_insDedup, ih]

theorem insDedup_pairwise {x : String} : ∀ {l : List String},
    l.Pairwise (fun a b => strLt a b = true) →
    (insDedup x l).Pairwise (fun a b => strLt a b = true) := by
  intro l
  induction l with
  | nil => intro _; simp [insDedup]
  | cons y ys ih =>
    intro hl
    rcases List.pairwise_cons.mp hl with ⟨hy, hys⟩
    by_cases h1 : x = y
    · simpa [insDedup, h1] using hl
    · by_cases h2 : strLt x y = true
      · have hall : ∀ z ∈ y :: ys, strLt x z = true := by
          intro z hz
          rcases List.mem_cons.mp hz with rfl | hz2
          · exact h2
          · exact strLt_trans h2 (hy z hz2)
        simp only [insDedup, if_neg h1, if_pos h2]
        exact List.pairwise_cons.mpr ⟨hall, hl⟩
      · have hyx : strLt y x = true := by
          rcases strLt_total h1 with h3 | h3
          · exact absurd h3 h2
          · exact h3
        simp only [insDedup, if_neg h1, if_neg h2]
        refine List.pairwise_cons.mpr ⟨?_, ih hys⟩
        intro z hz
        rcases mem_insDedup.mp hz with rfl | hz2
        · exact hyx
        · exact hy z hz2

theorem sortedUnique_pairwise : ∀ (l : List String),
    (sortedUnique l).Pairwise (fun a b => strLt a b = true) := by
  intro l
  induction l with
  | nil => simp [sortedUnique]
  | cons x xs ih => exact insDedup_pairwise ih

/-! ### Facts about the transition model -/

theorem transPairs_shiftNext : ∀ ct : List String,
    transPairs ct (shiftNext ct) = ct.zip ct.tail
  | [] => rfl
  | [_] => rfl
  | x :: y :: rest => by
    have ih := transPairs_shiftNext (y :: rest)
    show (x, y) :: transPairs (y :: rest) (shiftNext (y :: rest)) =
      (x, y) :: (y :: rest).zip rest
    rw [ih]
    exact rfl

theorem transProb_nonneg (pairs : List (String × String)) (s t : String) :
    0 ≤ transProb pairs s t :=
  Rat.mkRat_nonneg (by exact_mod_cast Nat.zero_le _) _

theorem transCount_zero_of_not_mem {pairs : List (String × String)} {s t : String}
    (h : t ∉ ctCols pairs) : transCount pairs s t = 0 := by
  rw [transCount, List.length_eq_zero]
  by_contra hne
  obtain ⟨pr, hpr⟩ := List.exists_mem_of_ne_nil _ hne
  have h2 := List.mem_filter.mp hpr
  have h3 : pr.2 = t := by
    have h4 := h2.2
    simp only [Bool.and_eq_true, beq_iff_eq] at h4
    exact h4.2
  exact h (mem_sortedUnique.mpr (List.mem_map.mpr ⟨pr, h2.1, h3⟩))

theorem transProb_zero_of_not_mem {pairs : List (String × String)} {s t : String}
    (h : t ∉ ctCols pairs) : transProb pairs s t = 0 := by
  rw [transProb, transCount_zero_of_not_mem h]
  simp

theorem pairsOf_def (rows : List Row) :
    transPairs (ctOf rows) (shiftNext (ctOf rows)) = pairsOf rows := rfl

/-- Unfolding of the predictor body once the last event is known to own a row
of the crosstab. -/
theorem searchBody_elim (rows : List Row) (lastEvent : String)
    (hlast : (ctOf rows).getLast? = some lastEvent)
    (hmem : lastEvent ∈ ctIndex (pairsOf rows)) :
    searchBody rows (ctOf rows) (shiftNext (ctOf rows)) =
      match seriesIdxmax (ctCols (pairsOf rows))
          ((ctCols (pairsOf rows)).map (transProb (pairsOf rows) lastEvent)) with
      | none => Except.error Err.valueError
      | some (predText, predProb) =>
        if mkRat 1 2 ≤ predProb then
          match firstMatch rows (ctOf rows) predText with
          | some r => Except.ok (some (rowToTask r))
          | none => Except.error Err.indexError
        else Except.ok none := by
  unfold searchBody
  rw [hlast]
  dsimp only
  rw [pairsOf_def, if_pos hmem]

theorem ctCols_ne_nil_of_mem_index {pairs : List (String × String)} {s : String}
    (h : s ∈ ctIndex pairs) : ctCols pairs ≠ [] := by
  have h1 := mem_sortedUnique.mp h
  rcases pairs with _ | ⟨pr, rest⟩
  · simp at h1
  · exact List.ne_nil_of_mem (mem_sortedUnique.mpr (List.mem_map.mpr ⟨pr, by simp, rfl⟩))

theorem seriesIdxmax_spec (f : String → ℚ) : ∀ (labels : List String), labels ≠ [] →
    ∃ p, seriesIdxmax labels (labels.map f) = some (p, f p) ∧ p ∈ labels ∧
      (∀ t ∈ labels, f t ≤ f p) ∧
      (labels.Pairwise (fun a b => strLt a b = true) →
        ∀ t ∈ labels, f t = f p → p = t ∨ strLt p t = true) := by
  intro labels
  induction labels with
  | nil => intro h; exact absurd rfl h
  | cons x ls ih =>
    intro _
    cases ls with
    | nil =>
      refine ⟨x, by simp [seriesIdxmax], by simp, ?_, ?_⟩
      · intro t ht
        have ht2 : t = x := by simpa using ht
        rw [ht2]
      · intro _ t ht _
        left
        have ht2 : t = x := by simpa using ht
        rw [ht2]
    | cons y ys =>
      obtain ⟨p, hp, hpmem, hpmax, hptie⟩ := ih (by simp)
      have hstep : seriesIdxmax (x :: y :: ys) (List.map f (x :: y :: ys)) =
          match seriesIdxmax (y :: ys) (List.map f (y :: ys)) with
          | none => some (x, f x)
          | some (l2, v2) => if f x < v2 then some (l2, v2) else some (x, f x) := rfl
      by_cases hcmp : f x < f p
      · refine ⟨p, ?_, by simp [hpmem], ?_, ?_⟩
        · rw [hstep, hp]
          show (if f x < f p then some (p, f p) else some (x, f x)) = some (p, f p)
          rw [if_pos hcmp]
        · intro t ht
          rcases List.mem_cons.mp ht with rfl | ht2
          · exact le_of_lt hcmp
          · exact hpmax t ht2
        · intro hsort t ht hft
          rcases List.mem_cons.mp ht with rfl | ht2
          · exact absurd hft (ne_of_lt hcmp)
          · exact hptie (List.pairwise_cons.mp hsort).2 t ht2 hft
      · refine ⟨x, ?_, by simp, ?_, ?_⟩
        · rw [hstep, hp]
          show (if f x < f p then some (p, f p) else some (x, f x)) = some (x, f x)
          rw [if_neg hcmp]
        · intro t ht
          rcases List.mem_cons.mp ht with rfl | ht2
          · exact le_rfl
          · exact le_trans (hpmax t ht2) (not_lt.mp hcmp)
        · intro hsort t ht _
          rcases List.mem_cons.mp ht with rfl | ht2
          · exact Or.inl rfl
          · exact Or.inr ((List.pairwise_cons.mp hsort).1 t ht2)

theorem firstMatch_isSome {p : String} : ∀ (rows : List Row) (ct : List String),
    ct.length ≤ rows.length → p ∈ ct → ∃ r, firstMatch rows ct p = some r := by
  intro rows
  induction rows with
  | nil =>
    intro ct hlen hmem
    have : ct = [] := List.eq_nil_of_length_eq_zero (Nat.le_zero.mp (by simpa using hlen))
    rw [this] at hmem
    simp at hmem
  | cons r rs ih =>
    intro ct hlen hmem
    cases ct with
    | nil => simp at hmem
    | cons c cs =>
      by_cases hc : c = p
      · exact ⟨r, by simp [firstMatch, List.find?, hc]⟩
      · have hp2 : p ∈ cs := by
          rcases List.mem_cons.mp hmem with rfl | h2
          · exact absurd rfl hc
          · exact h2
        obtain ⟨r2, hr2⟩ := ih cs (by simpa using hlen) hp2
        refine ⟨r2, ?_⟩
        show (((r, c) :: rs.zip cs).find? (fun rc => rc.2 == p)).map Prod.fst = some r2
        rw [List.find?_cons_of_neg _ (by simpa using hc)]
        exact hr2

/-- The combined predictor specification: once the last event of the history
has at least one observed outgoing transition, idxmax selects the successor of
maximal empirical probability (lexicographically least among ties), and
`_searching_for_sequences` emits exactly when that probability reaches 0.5. -/
theorem predictor_spec (rows : List Row) (lastEvent : String)
    (hlast : (ctOf rows).getLast? = some lastEvent)
    (hmem : lastEvent ∈ ctIndex (pairsOf rows)) :
    ∃ p, seriesIdxmax (ctCols (pairsOf rows))
          ((ctCols (pairsOf rows)).map (transProb (pairsOf rows) lastEvent)) =
        some (p, transProb (pairsOf rows) lastEvent p) ∧
      p ∈ ctCols (pairsOf rows) ∧
      (∀ t, transProb (pairsOf rows) lastEvent t ≤ transProb (pairsOf rows) lastEvent p) ∧
      (∀ t ∈ ctCols (pairsOf rows), transProb (pairsOf rows) lastEvent t =
          transProb (pairsOf rows) lastEvent p → p = t ∨ strLt p t = true) ∧
      (mkRat 1 2 ≤ transProb (pairsOf rows) lastEvent p →
        ∃ r, firstMatch rows (ctOf rows) p = some r ∧
          searching_for_sequences (withDerived (dfOf rows)) =
            Except.ok (some (rowToTask r))) ∧
      (transProb (pairsOf rows) lastEvent p < mkRat 1 2 →
        searching_for_sequences (withDerived (dfOf rows)) = Except.ok none) := by
  have hcolsne : ctCols (pairsOf rows) ≠ [] := ctCols_ne_nil_of_mem_index hmem
  obtain ⟨p, hp, hpmem, hpmax, hptie⟩ :=
    seriesIdxmax_spec (transProb (pairsOf rows) lastEvent) _ hcolsne
  have hmax : ∀ t, transProb (pairsOf rows) lastEvent t ≤
      transProb (pairsOf rows) lastEvent p := by
    intro t
    by_cases ht : t ∈ ctCols (pairsOf rows)
    · exact hpmax t ht
    · rw [transProb_zero_of_not_mem ht]
      exact transProb_nonneg _ _ _
  have hsearch : searching_for_sequences (withDerived (dfOf rows)) =
      searchBody rows (ctOf rows) (shiftNext (ctOf rows)) := rfl
  refine ⟨p, hp, hpmem, hmax, hptie (sortedUnique_pairwise _), ?_, ?_⟩
  · intro hthr
    have hpct : p ∈ ctOf rows := by
      have h1 := mem_sortedUnique.mp hpmem
      obtain ⟨pr, hpr, rfl⟩ := List.mem_map.mp h1
      have h2 : pr ∈ (ctOf rows).zip (ctOf rows).tail := by
        rw [← transPairs_shiftNext]
        exact hpr
      exact (List.tail_sublist _).subset (List.of_mem_zip h2).2
    obtain ⟨r, hr⟩ := firstMatch_isSome rows (ctOf rows)
      (by rw [ctOf, List.length_map]) hpct
    refine ⟨r, hr, ?_⟩
    rw [hsearch, searchBody_elim rows lastEvent hlast hmem, hp]
    dsimp only
    rw [if_pos hthr, hr]
  · intro hlt
    rw [hsearch, searchBody_elim rows lastEvent hlast hmem, hp]
    dsimp only
    rw [if_neg (not_le.mpr hlt)]

/-! ### Facts about the server-side suggestion filter -/

theorem mem_insertDesc {p q : String × ℚ} : ∀ {l : List (String × ℚ)},
    q ∈ insertDesc p l ↔ q = p ∨ q ∈ l := by
  intro l
  induction l with
  | nil => simp [insertDesc]
  | cons x xs ih =>
    by_cases h : x.2 ≤ p.2 <;> simp [insertDesc, h, ih] <;> tauto

theorem mem_sortDescStable {q : String × ℚ} : ∀ {l : List (String × ℚ)},
    q ∈ sortDescStable l ↔ q ∈ l := by
  intro l
  induction l with
  | nil => simp [sortDescStable]
  | cons x xs ih =>
    show q ∈ insertDesc x (sortDescStable xs) ↔ _
    simp [mem_insertDesc, ih]

theorem assocAppend_lookup {k v k2 s : String} : ∀ {acc : List (String × List String)}
    {l : List String},
    (assocAppend k v acc).lookup k2 = some l → s ∈ l →
    s = v ∨ ∃ l0, acc.lookup k2 = some l0 ∧ s ∈ l0 := by
  intro acc
  induction acc with
  | nil =>
    intro l hl hs
    by_cases hk : k2 = k
    · subst hk
      simp [assocAppend, List.lookup] at hl
      rw [← hl] at hs
      left
      simpa using hs
    · simp only [assocAppend, List.lookup] at hl
      rw [beq_false_of_ne hk] at hl
      simp at hl
  | cons e rest ih =>
    rcases e with ⟨k3, l3⟩
    intro l hl hs
    by_cases h3 : k3 = k
    · subst h3
      simp only [assocAppend, if_pos rfl] at hl
      by_cases hk : k2 = k3
      · subst hk
        simp [List.lookup] at hl
        rw [← hl] at hs
        rcases List.mem_append.mp hs with h | h
        · right
          exact ⟨l3, by simp [List.lookup], h⟩
        · left
          simpa using h
      · simp only [List.lookup, beq_false_of_ne hk] at hl
        right
        refine ⟨l, ?_, hs⟩
        simp only [List.lookup, beq_false_of_ne hk]
        exact hl
    · simp only [assocAppend, if_neg h3] at hl
      by_cases hk : k2 = k3
      · subst hk
        simp [List.lookup] at hl
        right
        exact ⟨l3, by simp [List.lookup], by rw [hl]; exact hs⟩
      · simp only [List.lookup, beq_false_of_ne hk] at hl
        rcases ih hl hs with h | ⟨l0, hl0, hs0⟩
        · exact Or.inl h
        · right
          refine ⟨l0, ?_, hs0⟩
          simp only [List.lookup, beq_false_of_ne hk]
          exact hl0

theorem titleLoop_inv (C : String → Prop) (key : String) :
    ∀ (pairs : List (String × ℚ)) (acc : List (String × List String)) (limit : Int),
    (∀ k2 l s, acc.lookup k2 = some l → s ∈ l → C s) →
    (∀ s sc, (s, sc) ∈ pairs → mkRat 1 2 < sc → C s) →
    ∀ k2 l s, (titleLoop key pairs acc limit).1.lookup k2 = some l → s ∈ l → C s := by
  intro pairs
  induction pairs with
  | nil =>
    intro acc limit hacc _ k2 l s hl hs
    exact hacc k2 l s hl hs
  | cons pr rest ih =>
    rcases pr with ⟨s0, sc0⟩
    intro acc limit hacc hpairs k2 l s hl hs
    by_cases hsc : mkRat 1 2 < sc0
    · have hacc2 : ∀ k2 l s, (assocAppend key s0 acc).lookup k2 = some l → s ∈ l → C s := by
        intro k2b lb sb hlb hsb
        rcases assocAppend_lookup hlb hsb with rfl | ⟨l0, hl0, hs0⟩
        · exact hpairs sb sc0 (by simp) hsc
        · exact hacc k2b l0 sb hl0 hs0
      by_cases hlim : 0 < limit
      · simp only [titleLoop, if_pos hsc, if_pos hlim] at hl
        exact ih (assocAppend key s0 acc) (limit - 1) hacc2
          (fun s2 sc2 hm h2 => hpairs s2 sc2 (by simp [hm]) h2) k2 l s hl hs
      · simp only [titleLoop, if_pos hsc, if_neg hlim] at hl
        exact hacc2 k2 l s hl hs
    · simp only [titleLoop, if_neg hsc] at hl
      exact ih acc limit hacc
        (fun s2 sc2 hm h2 => hpairs s2 sc2 (by simp [hm]) h2) k2 l s hl hs

theorem gtdsOuter_inv (C : String → Prop) (tt : Option String) :
    ∀ (matrix : List (String × List (String × ℚ))) (acc : List (String × List String))
      (limit : Int),
    (∀ k2 l s, acc.lookup k2 = some l → s ∈ l → C s) →
    (∀ title sims s sc, (title, sims) ∈ matrix → (s, sc) ∈ sims → mkRat 1 2 < sc → C s) →
    ∀ k2 l s, (gtdsOuter tt matrix acc limit).lookup k2 = some l → s ∈ l → C s := by
  intro matrix
  induction matrix with
  | nil =>
    intro acc limit hacc _ k2 l s hl hs
    exact hacc k2 l s hl hs
  | cons e rest ih =>
    rcases e with ⟨title, sims⟩
    intro acc limit hacc hmat k2 l s hl hs
    by_cases hskip : isTruthy tt = true ∧ ¬ tt = some title
    · simp only [gtdsOuter, if_pos hskip] at hl
      exact ih acc limit hacc
        (fun t2 s2 a b hm h2 h3 => hmat t2 s2 a b (by simp [hm]) h2 h3) k2 l s hl hs
    · simp only [gtdsOuter, if_neg hskip] at hl
      rcases htl : titleLoop (title ++ " Follow-up") (sortDescStable sims) acc limit with
        ⟨acc2, limit2, er⟩
      rw [htl] at hl
      dsimp only at hl
      have hacc2 : ∀ k2 l s, acc2.lookup k2 = some l → s ∈ l → C s := by
        intro k2b lb sb hlb hsb
        exact titleLoop_inv C (title ++ " Follow-up") (sortDescStable sims) acc limit hacc
          (fun s2 sc2 hm h2 => hmat title sims s2 sc2 (by simp) (mem_sortDescStable.mp hm) h2)
          k2b lb sb (by rw [htl]; exact hlb) hsb
      cases er with
      | false =>
        simp only [Bool.false_eq_true, if_false] at hl
        exact ih acc2 limit2 hacc2
          (fun t2 s2 a b hm h2 h3 => hmat t2 s2 a b (by simp [hm]) h2 h3) k2 l s hl hs
      | true =>
        simp only [if_true] at hl
        exact hacc2 k2 l s hl hs

/-! ### Concrete histories used by the evaluations -/

/-- History alpha, beta, alpha, beta: the transition beta to alpha has
empirical probability 1, so a confident prediction exists. -/
def histAB : List Row := [rowAlpha, rowBeta, rowAlpha, rowBeta]

/-- History alpha, beta, alpha, carol, alpha: out of the last state alpha the
successors beta and carol are tied at probability one half. -/
def histTie : List Row := [rowAlpha, rowBeta, rowAlpha, rowCarol, rowAlpha]

/-- History alpha, beta, alpha, carol, alpha, delta, alpha: out of the last
state alpha every successor has probability one third, below the threshold,
so the predictor returns no prediction. -/
def histNoPred : List Row :=
  [rowAlpha, rowBeta, rowAlpha, rowCarol, rowAlpha, rowDelta, rowAlpha]

/-! ### The claims -/

/-- C1 (code bug): the spec promises that an empty corpus yields empty
results without raising, but the model of the code errors everywhere on the
empty corpus: the orchestrator and the sequence predictor hit the IndexError
of `iloc[-1]` on an empty column, and the similarity ranker hits the
ValueError of fitting an empty vocabulary. -/
theorem C1_empty_corpus_raises :
    (suggest_similar_tasks (dfOf []) none 5).1 = Except.error Err.indexError ∧
    searching_for_sequences (withDerived (dfOf [])) = Except.error Err.indexError ∧
    suggest_similar_texts (withDerived (dfOf [])) none 5 = Except.error Err.valueError :=
  ⟨by decide, by decide, by decide⟩

/-- C3 (code bug): when the last element's combined text never occurs as the
source of an observed transition — a single-task history, or the all-distinct
history alpha, beta, carol, delta — the crosstab has no row for it and
`.loc` raises KeyError instead of returning the documented None. -/
theorem C3_missing_row_raises :
    searching_for_sequences (withDerived (dfOf [rowAlpha])) = Except.error Err.keyError ∧
    searching_for_sequences (withDerived (dfOf [rowAlpha, rowBeta, rowCarol, rowDelta])) =
      Except.error Err.keyError :=
  ⟨by decide, by decide⟩

/-- C2 counterexample: with history alpha, beta, alpha, beta a confident
sequence prediction exists, and `suggest_similar_tasks` with top_n = 0
returns the one-element list holding the prediction, not the empty list. -/
theorem C2_counterexample :
    (suggest_similar_tasks (dfOf histAB) none 0).1 = Except.ok [rowToTask rowAlpha] ∧
    (suggest_similar_tasks (dfOf histAB) none 0).1 ≠ Except.ok [] :=
  ⟨by decide, by decide⟩

/-- C2 (corrected): with a nonnegative budget, any normal return of
`suggest_similar_tasks` has length at most max(top_n, 1); with top_n = 0 the
result is the empty list unless it is the one-element list holding the
sequence prediction. -/
theorem C2_amended (df : DataFrame) (target : Option Task) (topN : Int) (l : List Task)
    (h0 : 0 ≤ topN) (h : (suggest_similar_tasks df target topN).1 = Except.ok l) :
    l.length ≤ max topN.toNat 1 ∧ (topN = 0 → l = [] ∨ ∃ t, l = [t]) := by
  unfold suggest_similar_tasks at h
  dsimp only at h
  cases hs : searching_for_sequences (withDerived df) with
  | error e =>
    rw [hs] at h
    simp at h
  | ok o =>
    cases o with
    | none =>
      rw [hs] at h
      dsimp only at h
      refine ⟨le_trans (sst_length_le h0 h) (le_max_left _ _), ?_⟩
      intro h00
      subst h00
      exact Or.inl (sst_zero h)
    | some t =>
      rw [hs] at h
      dsimp only at h
      by_cases hbr : 0 < topN - 1
      · rw [if_pos hbr] at h
        cases hst : suggest_similar_texts (withDerived df) target (topN - 1) with
        | error e =>
          rw [hst] at h
          simp at h
        | ok l2 =>
          rw [hst] at h
          dsimp only at h
          have hl : l = t :: l2 := (Except.ok.inj h).symm
          subst hl
          have hlen := sst_length_le (by omega) hst
          constructor
          · rw [List.length_cons]
            omega
          · intro h00
            omega
      · rw [if_neg hbr] at h
        dsimp only at h
        have hl : l = [t] := (Except.ok.inj h).symm
        subst hl
        exact ⟨by simp, fun _ => Or.inr ⟨t, rfl⟩⟩

/-- C2 witness: the amended claim evaluated on the confident-prediction
history with top_n = 0. -/
theorem C2_witness :
    ((0 : Int) ≤ 0 ∧
      (suggest_similar_tasks (dfOf histAB) none 0).1 = Except.ok [rowToTask rowAlpha]) ∧
    ([rowToTask rowAlpha].length ≤ max (0 : Int).toNat 1 ∧
      ((0 : Int) = 0 → [rowToTask rowAlpha] = [] ∨ ∃ t, [rowToTask rowAlpha] = [t])) :=
  ⟨⟨le_refl 0, by decide⟩, C2_amended (dfOf histAB) none 0 [rowToTask rowAlpha]
    (le_refl 0) (by decide)⟩

/-- C8 counterexample: the call mutates the caller's dataframe (the derived
columns are assigned into it), so the dataframe after the call differs from
the dataframe that was passed in. -/
theorem C8_counterexample :
    (suggest_similar_tasks (dfOf [rowAlpha]) none 5).2 ≠ dfOf [rowAlpha] := by decide

/-- C8 (corrected): the engine leaves the rows (titles, descriptions, due
dates, order and count) untouched, but it does mutate the caller's dataframe:
after the call the dataframe is exactly the input with the two derived
columns assigned, hence different from the input whenever the column was
absent. -/
theorem C8_amended (df : DataFrame) (target : Option Task) (topN : Int)
    (h : df.combined_text = none) :
    (suggest_similar_tasks df target topN).2.rows = df.rows ∧
    (suggest_similar_tasks df target topN).2 = withDerived df ∧
    (suggest_similar_tasks df target topN).2 ≠ df := by
  have h2 : (suggest_similar_tasks df target topN).2 = withDerived df := by
    unfold suggest_similar_tasks
    dsimp only
    cases hs : searching_for_sequences (withDerived df) with
    | error e => rfl
    | ok o =>
      cases o with
      | none => rfl
      | some t =>
        dsimp only
        by_cases hbr : 0 < topN - 1
        · rw [if_pos hbr]
          cases hst : suggest_similar_texts (withDerived df) target (topN - 1) with
          | error e => rfl
          | ok l2 => rfl
        · rw [if_neg hbr]
  refine ⟨by rw [h2]; rfl, h2, ?_⟩
  rw [h2]
  intro heq
  have h3 := congrArg DataFrame.combined_text heq
  rw [h] at h3
  simp [withDerived] at h3

/-- C8 witness: the amended claim evaluated on a one-row dataframe without
derived columns. -/
theorem C8_witness :
    (dfOf [rowAlpha]).combined_text = none ∧
    ((suggest_similar_tasks (dfOf [rowAlpha]) none 5).2.rows = (dfOf [rowAlpha]).rows ∧
      (suggest_similar_tasks (dfOf [rowAlpha]) none 5).2 = withDerived (dfOf [rowAlpha]) ∧
      (suggest_similar_tasks (dfOf [rowAlpha]) none 5).2 ≠ dfOf [rowAlpha]) :=
  ⟨rfl, C8_amended (dfOf [rowAlpha]) none 5 rfl⟩

/-- C10 (confirmed): a negative top_n is not rejected: with a confident
sequence prediction the result is the one-element list holding it (the
slicing branch is skipped), and otherwise the ranked list is returned with
its last |top_n| entries dropped by Python negative slicing, so a normal
no-prediction return has exactly corpus-size + top_n entries. -/
theorem C10_negative_top_n (df : DataFrame) (target : Option Task) (topN : Int)
    (h : topN < 0) :
    (∀ t, searching_for_sequences (withDerived df) = Except.ok (some t) →
        (suggest_similar_tasks df target topN).1 = Except.ok [t]) ∧
    (searching_for_sequences (withDerived df) = Except.ok none →
        (suggest_similar_tasks df target topN).1 =
          suggest_similar_texts (withDerived df) target topN) ∧
    (∀ l, suggest_similar_texts (withDerived df) target topN = Except.ok l →
        l.length = ((df.rows.length : Int) + topN).toNat) := by
  refine ⟨?_, ?_, ?_⟩
  · intro t hseq
    unfold suggest_similar_tasks
    dsimp only
    rw [hseq]
    dsimp only
    rw [if_neg (by omega)]
  · intro hseq
    unfold suggest_similar_tasks
    dsimp only
    rw [hseq]
  · intro l hl
    obtain ⟨row, hrow, hlen, hout⟩ := sst_withDerived_length hl
    rw [hout, length_rankedIndices_neg row h, hlen]

/-- C10 witness: the confirmed claim evaluated on the no-prediction history
with top_n = -2; the similarity branch then returns 7 - 2 = 5 tasks. -/
theorem C10_witness :
    ((-2 : Int) < 0) ∧
    ((∀ t, searching_for_sequences (withDerived (dfOf histNoPred)) = Except.ok (some t) →
        (suggest_similar_tasks (dfOf histNoPred) none (-2)).1 = Except.ok [t]) ∧
      (searching_for_sequences (withDerived (dfOf histNoPred)) = Except.ok none →
        (suggest_similar_tasks (dfOf histNoPred) none (-2)).1 =
          suggest_similar_texts (withDerived (dfOf histNoPred)) none (-2)) ∧
      (∀ l, suggest_similar_texts (withDerived (dfOf histNoPred)) none (-2) = Except.ok l →
        l.length = (((dfOf histNoPred).rows.length : Int) + (-2)).toNat)) :=
  ⟨by decide, C10_negative_top_n (dfOf histNoPred) none (-2) (by decide)⟩

/-- C4 counterexample: in pairwise mode on the two-task corpus alpha, beta,
the first task is ranked as its own top match (its self-similarity row entry
is 1), and a budget of 5 returns both tasks — corpus size, not corpus size
minus self. -/
theorem C4_counterexample :
    suggest_similar_texts (withDerived (dfOf [rowAlpha, rowBeta])) none 5 =
      Except.ok [rowToTask rowAlpha, rowToTask rowBeta] ∧
    similarityRow (ctOf [rowAlpha, rowBeta]) "" = Except.ok [1, 0] :=
  ⟨by decide, by decide⟩

/-- C4 (corrected): in pairwise mode the ranker ranks the whole corpus by
similarity to the first task and never excludes a task from its own list:
with a nonempty fitted vocabulary and top_n at least the corpus size, the
call returns normally with exactly corpus-size results (self included). -/
theorem C4_amended (rows : List Row) (topN : Int)
    (hvocab : ¬ (fitVocab (rows.map combinedText)).isEmpty)
    (h0 : 0 ≤ topN) (hN : (rows.length : Int) ≤ topN) :
    ∃ l, suggest_similar_texts (withDerived (dfOf rows)) none topN = Except.ok l ∧
      l.length = rows.length := by
  obtain ⟨row, hrow, hlen⟩ := similarityRow_ok_of_vocab (targetText none) hvocab
  have hct : (withDerived (dfOf rows)).combined_text = some (rows.map combinedText) := rfl
  refine ⟨(rankedIndices row topN).filterMap
      (fun i => ((withDerived (dfOf rows)).rows.get? i).map rowToTask), ?_, ?_⟩
  · unfold suggest_similar_texts
    rw [hct]
    dsimp only
    rw [hrow]
  · have hlen2 : row.length = rows.length := by rw [hlen, List.length_map]
    have hrows : (withDerived (dfOf rows)).rows = rows := rfl
    rw [hrows]
    rw [length_filterMap_get rows _
      (fun i hi => by rw [← hlen2]; exact mem_rankedIndices_lt hi)]
    rw [length_rankedIndices_nonneg row h0, hlen2]
    omega

/-- C4 witness: the amended claim evaluated on the corpus alpha, beta with
budget 5 returns exactly two tasks. -/
theorem C4_witness :
    (¬ (fitVocab ([rowAlpha, rowBeta].map combinedText)).isEmpty ∧
      (0 : Int) ≤ 5 ∧ (([rowAlpha, rowBeta] : List Row).length : Int) ≤ 5) ∧
    (∃ l, suggest_similar_texts (withDerived (dfOf [rowAlpha, rowBeta])) none 5 =
        Except.ok l ∧ l.length = ([rowAlpha, rowBeta] : List Row).length) :=
  ⟨⟨by decide, by decide, by decide⟩,
    C4_amended [rowAlpha, rowBeta] 5 (by decide) (by decide) (by decide)⟩

/-- C5 (confirmed): for a history whose last state has at least one observed
outgoing transition, the candidate is the idxmax successor, whose empirical
probability conditioned only on the last element dominates every other text,
and the predictor emits it exactly when that probability is at least 0.5,
returning None (not an error) below the threshold. -/
theorem C5_argmax_and_threshold (rows : List Row) (lastEvent : String)
    (hlast : (ctOf rows).getLast? = some lastEvent)
    (hmem : lastEvent ∈ ctIndex (pairsOf rows)) :
    ∃ p, seriesIdxmax (ctCols (pairsOf rows))
          ((ctCols (pairsOf rows)).map (transProb (pairsOf rows) lastEvent)) =
        some (p, transProb (pairsOf rows) lastEvent p) ∧
      (∀ t, transProb (pairsOf rows) lastEvent t ≤ transProb (pairsOf rows) lastEvent p) ∧
      (mkRat 1 2 ≤ transProb (pairsOf rows) lastEvent p →
        ∃ r, firstMatch rows (ctOf rows) p = some r ∧
          searching_for_sequences (withDerived (dfOf rows)) =
            Except.ok (some (rowToTask r))) ∧
      (transProb (pairsOf rows) lastEvent p < mkRat 1 2 →
        searching_for_sequences (withDerived (dfOf rows)) = Except.ok none) := by
  obtain ⟨p, h1, _, h3, _, h5, h6⟩ := predictor_spec rows lastEvent hlast hmem
  exact ⟨p, h1, h3, h5, h6⟩

/-- C5 witness: on the history alpha, beta, alpha, beta the last state beta
has the observed successor alpha with probability 1, so the prediction is
emitted. -/
theorem C5_witness :
    ((ctOf histAB).getLast? = some "beta " ∧ "beta " ∈ ctIndex (pairsOf histAB)) ∧
    (∃ p, seriesIdxmax (ctCols (pairsOf histAB))
          ((ctCols (pairsOf histAB)).map (transProb (pairsOf histAB) "beta ")) =
        some (p, transProb (pairsOf histAB) "beta " p) ∧
      (∀ t, transProb (pairsOf histAB) "beta " t ≤ transProb (pairsOf histAB) "beta " p) ∧
      (mkRat 1 2 ≤ transProb (pairsOf histAB) "beta " p →
        ∃ r, firstMatch histAB (ctOf histAB) p = some r ∧
          searching_for_sequences (withDerived (dfOf histAB)) =
            Except.ok (some (rowToTask r))) ∧
      (transProb (pairsOf histAB) "beta " p < mkRat 1 2 →
        searching_for_sequences (withDerived (dfOf histAB)) = Except.ok none)) :=
  ⟨⟨by decide, by decide⟩,
    C5_argmax_and_threshold histAB "beta " (by decide) (by decide)⟩

/-- C9 (confirmed): the predictor is a pure function, and among successors
tied at the maximal probability idxmax deterministically picks the one whose
combined text is first in the sorted (lexicographic) column ordering of the
transition table; when the tied probability reaches 0.5 that text is the one
reconstructed and returned. -/
theorem C9_lex_least_tie_break (rows : List Row) (lastEvent : String)
    (hlast : (ctOf rows).getLast? = some lastEvent)
    (hmem : lastEvent ∈ ctIndex (pairsOf rows)) :
    ∃ p, seriesIdxmax (ctCols (pairsOf rows))
          ((ctCols (pairsOf rows)).map (transProb (pairsOf rows) lastEvent)) =
        some (p, transProb (pairsOf rows) lastEvent p) ∧
      p ∈ ctCols (pairsOf rows) ∧
      (∀ t ∈ ctCols (pairsOf rows), transProb (pairsOf rows) lastEvent t =
          transProb (pairsOf rows) lastEvent p → p = t ∨ strLt p t = true) ∧
      (mkRat 1 2 ≤ transProb (pairsOf rows) lastEvent p →
        ∃ r, firstMatch rows (ctOf rows) p = some r ∧
          searching_for_sequences (withDerived (dfOf rows)) =
            Except.ok (some (rowToTask r))) := by
  obtain ⟨p, h1, h2, _, h4, h5, _⟩ := predictor_spec rows lastEvent hlast hmem
  exact ⟨p, h1, h2, h4, h5⟩

/-- C9 witness: on the history alpha, beta, alpha, carol, alpha the
successors beta and carol of the last state alpha are tied at probability one
half, and the lexicographically least tied text beta is the prediction. -/
theorem C9_witness :
    ((ctOf histTie).getLast? = some "alpha " ∧ "alpha " ∈ ctIndex (pairsOf histTie) ∧
      searching_for_sequences (withDerived (dfOf histTie)) =
        Except.ok (some (rowToTask rowBeta)) ∧
      transProb (pairsOf histTie) "alpha " "beta " =
        transProb (pairsOf histTie) "alpha " "carol ") ∧
    (∃ p, seriesIdxmax (ctCols (pairsOf histTie))
          ((ctCols (pairsOf histTie)).map (transProb (pairsOf histTie) "alpha ")) =
        some (p, transProb (pairsOf histTie) "alpha " p) ∧
      p ∈ ctCols (pairsOf histTie) ∧
      (∀ t ∈ ctCols (pairsOf histTie), transProb (pairsOf histTie) "alpha " t =
          transProb (pairsOf histTie) "alpha " p → p = t ∨ strLt p t = true) ∧
      (mkRat 1 2 ≤ transProb (pairsOf histTie) "alpha " p →
        ∃ r, firstMatch histTie (ctOf histTie) p = some r ∧
          searching_for_sequences (withDerived (dfOf histTie)) =
            Except.ok (some (rowToTask r)))) :=
  ⟨⟨by decide, by decide, by decide, by decide⟩,
    C9_lex_least_tie_break histTie "alpha " (by decide) (by decide)⟩

/-- C6 counterexample: the pairwise ranker applies no threshold: on the
corpus alpha, beta the second-ranked candidate has similarity 0, which is at
most 0.5, and it is still returned. -/
theorem C6_counterexample :
    suggest_similar_texts (withDerived (dfOf [rowAlpha, rowBeta])) none 2 =
      Except.ok [rowToTask rowAlpha, rowToTask rowBeta] ∧
    similarityRow (ctOf [rowAlpha, rowBeta]) "" = Except.ok [1, 0] ∧
    ((0 : ℚ) ≤ mkRat 1 2) :=
  ⟨by decide, by decide, by decide⟩

/-- C6 (corrected): the fixed threshold lives only in server.py: every title
that `generate_title_description_suggestions` places in a suggestion bucket
entered with a similarity score strictly greater than 0.5, so candidates
scoring at most 0.5 are excluded there — while `_suggest_similar_texts`
applies no threshold at all (see the counterexample). -/
theorem C6_amended (matrix : List (String × List (String × ℚ))) (tt : Option String)
    (limit : Int) (k : String) (l : List String) (s : String)
    (h : (generate_title_description_suggestions matrix tt limit).lookup k = some l)
    (hs : s ∈ l) :
    ∃ title sims sc, (title, sims) ∈ matrix ∧ (s, sc) ∈ sims ∧ mkRat 1 2 < sc :=
  gtdsOuter_inv
    (fun s2 => ∃ title sims sc, (title, sims) ∈ matrix ∧ (s2, sc) ∈ sims ∧ mkRat 1 2 < sc)
    tt matrix [] limit
    (by intro k2 l2 s2 hl2 _; simp [List.lookup] at hl2)
    (fun title sims s2 sc hm h2 h3 => ⟨title, sims, sc, hm, h2, h3⟩) k l s h hs

/-- C6 witness: the amended claim evaluated on a two-candidate similarity
matrix, where only the candidate scoring 0.6 survives the filter. -/
theorem C6_witness :
    ((generate_title_description_suggestions
        [("x", [("y", mkRat 6 10), ("z", mkRat 3 10)])] none 5).lookup "x Follow-up" =
      some ["y"] ∧ "y" ∈ ["y"]) ∧
    (∃ title sims sc,
      (title, sims) ∈ [("x", [("y", mkRat 6 10), ("z", mkRat 3 10)])] ∧
      ("y", sc) ∈ sims ∧ mkRat 1 2 < sc) :=
  ⟨⟨by decide, by decide⟩,
    C6_amended [("x", [("y", mkRat 6 10), ("z", mkRat 3 10)])] none 5 "x Follow-up"
      ["y"] "y" (by decide) (by decide)⟩

/-- C7 counterexample: on the corpus alpha, beta, beta the two beta tasks tie
at similarity 0 to the first task, and the later one (due date 7, corpus
index 2) is ranked before the earlier one — reverse corpus order, not stable
corpus order. -/
theorem C7_counterexample :
    suggest_similar_texts (withDerived (dfOf [rowAlpha, rowBeta, rowBeta7])) none 3 =
      Except.ok [rowToTask rowAlpha, rowToTask rowBeta7, rowToTask rowBeta] ∧
    suggest_similar_texts (withDerived (dfOf [rowAlpha, rowBeta, rowBeta7])) none 3 ≠
      Except.ok [rowToTask rowAlpha, rowToTask rowBeta, rowToTask rowBeta7] ∧
    similarityRow (ctOf [rowAlpha, rowBeta, rowBeta7]) "" = Except.ok [1, 0, 0] ∧
    rowToTask rowBeta ≠ rowToTask rowBeta7 :=
  ⟨by decide, by decide, by decide, by decide⟩

/-- C7 (corrected): the selected indices are the stable ascending argsort
reversed and sliced, so along the output scores descend and exact ties are
ordered by reverse corpus position (the later task first), each selected pair
carrying its true corpus score. -/
theorem C7_amended (row : List ℚ) (topN : Int) :
    rankedIndices row topN = (pySliceTake (sortedIdxPairs row).reverse topN).map Prod.fst ∧
    (pySliceTake (sortedIdxPairs row).reverse topN).Pairwise (fun a b => AscStable b a) ∧
    ∀ p ∈ pySliceTake (sortedIdxPairs row).reverse topN, row.get? p.1 = some p.2 := by
  refine ⟨?_, ?_, ?_⟩
  · rw [rankedIndices, argsortAsc, ← List.map_reverse, pySliceTake_map]
  · exact List.Pairwise.sublist (pySliceTake_sublist _ _)
      (List.pairwise_reverse.mpr (sortedIdxPairs_pairwise row))
  · intro p hp
    have h1 : p ∈ sortedIdxPairs row :=
      List.mem_reverse.mp ((pySliceTake_sublist _ _).subset hp)
    have h2 := (mem_idxFrom (mem_sortedIdxPairs.mp h1)).2
    simpa using h2

end TaskMgmt
